import Mathlib

/-!
Verification development for the gpii-app survey trigger engine and its
companion utilities (message-bundle grouping, mock survey server).

The trigger engine (SurveyTriggerManager / TriggerHandler / ConditionHandler)
is embedded as an explicit state machine following the specification's
component design; its registration, removal, condition-evaluation and
single-fire semantics are proved below.  The message-bundle key functions and
the mock survey server's send operation are embedded directly from their
JavaScript sources.
-/

namespace Gpii

/-- A trigger condition: a predicate kind (`type`) plus a comparison operand
(`value`), e.g. `keyedInBefore` with a millisecond threshold. -/
structure Condition where
  type : String
  value : Int
deriving DecidableEq, Repr

/-- A trigger: a unique id plus an ordered sequence of conditions. -/
structure Trigger where
  id : String
  conditions : List Condition
deriving DecidableEq, Repr

/-- The fact store: mutable named facts represented as an association list,
most recent binding first. -/
abbrev Facts := List (String × Int)

/-- Modelled from the spec: `get(key)` returns the current value of a fact or
"unset" (`none`). -/
def Facts.get (facts : Facts) (key : String) : Option Int :=
  (facts.find? (fun p => p.1 == key)).map Prod.snd

/-- Modelled from the spec: `set(key, value)` updates a fact; the old binding
for the key is dropped and the new one installed. -/
def Facts.set (facts : Facts) (key : String) (value : Int) : Facts :=
  (key, value) :: facts.filter (fun p => p.1 != key)

/-- Modelled from the spec: the registry of known condition predicates; the
only condition type observed in the source tests is `keyedInBefore`. -/
def knownConditionTypes : List String := ["keyedInBefore"]

/-- Modelled from the spec: evaluation of one condition's predicate against
the current facts and an externally supplied clock reading `now`.
`keyedInBefore` is satisfied when `(now - keyedInTimestamp) < value`; an
unset reference fact leaves the condition unsatisfied. -/
def evalCondition (cond : Condition) (facts : Facts) (now : Int) : Bool :=
  if cond.type = "keyedInBefore" then
    match facts.get "keyedInTimestamp" with
    | some ts => decide (now - ts < cond.value)
    | none => false
  else false

/-- Modelled from the spec: a TriggerHandler's aggregation rule — satisfied
iff every condition handler currently reports satisfied. -/
def triggerSatisfied (t : Trigger) (facts : Facts) (now : Int) : Bool :=
  t.conditions.all (fun c => evalCondition c facts now)

/-- Modelled from the spec: a trigger whose conditions include a type with no
registered predicate fails registration with `UnknownConditionType`. -/
def hasUnknownConditionType (t : Trigger) : Bool :=
  t.conditions.any (fun c => !(knownConditionTypes.contains c.type))

/-- The trigger manager's registry: trigger id mapped to the handler's owned
trigger definition. -/
abbrev Registry := List (String × Trigger)

/-- Look up the trigger handler registered under an id. -/
def registryLookup (reg : Registry) (id : String) : Option Trigger :=
  (reg.find? (fun p => p.1 == id)).map Prod.snd

/-- Delete the registry entry (if any) for an id. -/
def registryRemove (reg : Registry) (id : String) : Registry :=
  reg.filter (fun p => p.1 != id)

/-- Modelled from the spec: the observable state of the trigger manager — the
registry of live trigger handlers, the fact store, and the ordered log of
`onTriggerOccurred` payloads. -/
structure ManagerState where
  registry : Registry
  facts : Facts
  occurred : List Trigger
deriving DecidableEq, Repr

/-- The manager's initial state: empty registry, no facts, no occurrences. -/
def ManagerState.initial : ManagerState := ⟨[], [], []⟩

/-- Modelled from the spec: on a fact change every live handler re-checks its
aggregate; each satisfied handler fires (its payload is appended to the
occurrence log) and is removed from the registry in the same step. -/
def fireSatisfied (s : ManagerState) (now : Int) : ManagerState :=
  { registry := s.registry.filter (fun p => !(triggerSatisfied p.2 s.facts now))
    facts := s.facts
    occurred := s.occurred ++ (s.registry.filter
      (fun p => triggerSatisfied p.2 s.facts now)).map Prod.snd }

/-- Modelled from the spec: `registerTrigger` constructs a handler for
`trigger.id` and inserts it into the registry, replacing any prior
registration under the same id (spec section 4.4, replace policy, keeping the
invariant of at most one handler per id).  A condition whose type has no
registered predicate makes the whole registration fail with
`UnknownConditionType` and leaves the state unchanged.  The new handler's
conditions are evaluated once at creation against the current facts: if
already satisfied the handler fires immediately and is torn down. -/
def registerTrigger (s : ManagerState) (t : Trigger) (now : Int) :
    Except String ManagerState :=
  if hasUnknownConditionType t then
    Except.error "UnknownConditionType"
  else if triggerSatisfied t s.facts now then
    Except.ok { registry := registryRemove s.registry t.id
                facts := s.facts
                occurred := s.occurred ++ [t] }
  else
    Except.ok { registry := (t.id, t) :: registryRemove s.registry t.id
                facts := s.facts
                occurred := s.occurred }

/-- Modelled from the spec: `removeTrigger` looks up by `trigger.id`; if
present the handler is destroyed and the entry deleted; if absent this is a
no-op, not an error. -/
def removeTrigger (s : ManagerState) (t : Trigger) : ManagerState :=
  { s with registry := registryRemove s.registry t.id }

/-- Modelled from the spec: a fact mutation synchronously cascades through
condition re-evaluation, aggregation and firing within one step. -/
def changeFact (s : ManagerState) (key : String) (value : Int) (now : Int) :
    ManagerState :=
  fireSatisfied { s with facts := s.facts.set key value } now

/-- The external events driving the trigger engine.  Time-dependent events
carry the external clock reading at which they happen; the engine has no
time-passage transition of its own (spec section 5: re-evaluation only occurs
on fact changes, never by the passage of time alone). -/
inductive Event where
  | register (t : Trigger) (now : Int)
  | remove (t : Trigger)
  | change (key : String) (value : Int) (now : Int)
deriving DecidableEq, Repr

/-- One step of the trigger engine.  A failed registration leaves the state
unchanged (the error is local to `registerTrigger`). -/
def step (s : ManagerState) (e : Event) : ManagerState :=
  match e with
  | .register t now =>
    match registerTrigger s t now with
    | .ok s' => s'
    | .error _ => s
  | .remove t => removeTrigger s t
  | .change k v now => changeFact s k v now

/-- Run the engine over a trace of events from a given state. -/
def runFrom (s : ManagerState) (events : List Event) : ManagerState :=
  events.foldl step s

/-- Run the engine over a trace of events from the initial state. -/
def run (events : List Event) : ManagerState :=
  runFrom ManagerState.initial events

/-- The triggers newly fired by one step: the suffix the step appends to the
occurrence log. -/
def newlyFired (s : ManagerState) (e : Event) : List Trigger :=
  (step s e).occurred.drop s.occurred.length

/-- The clock reading carried by an event (removal carries none). -/
def eventNow : Event → Int
  | .register _ now => now
  | .remove _ => 0
  | .change _ _ now => now

/-- How many times a trace registers exactly the trigger `t`. -/
def timesRegistered (events : List Event) (t : Trigger) : Nat :=
  (events.filter (fun e =>
    match e with
    | .register t' _ => t' == t
    | _ => false)).length

/-- A well-formed registry: ids are pairwise distinct and each entry's key is
the id of the trigger it stores. -/
def goodRegistry (reg : Registry) : Prop :=
  (reg.map Prod.fst).Nodup ∧ ∀ p ∈ reg, p.1 = p.2.id

/-- One when the exact pair `(t.id, t)` is live in the registry, zero
otherwise; the bookkeeping quantity for the at-most-once argument. -/
def regIndicator (reg : Registry) (t : Trigger) : Nat :=
  if (t.id, t) ∈ reg then 1 else 0


/-- Modelled from the spec: when a trigger fires, `onTriggerOccurred` is
re-emitted to all subscribers in their registration order, each receiving the
original trigger payload. -/
def notifySubscribers (subscribers : List String) (t : Trigger) :
    List (String × Trigger) :=
  subscribers.map (fun sub => (sub, t))


/-- The trigger used by the source tests: id `trigger_1`, one `keyedInBefore`
condition with a 1000 ms threshold. -/
def sampleTrigger : Trigger := ⟨"trigger_1", [⟨"keyedInBefore", 1000⟩]⟩


namespace MessageBundles

/-- A JavaScript string, as the list of its characters. -/
abbrev JStr := List Char

/-- Embedding of JS `String.prototype.lastIndexOf` for a single-character
search string: the index of the last occurrence, or `-1` when absent. -/
def lastIndexOf : JStr → Char → Int
  | [], _ => -1
  | x :: xs, c =>
    if lastIndexOf xs c ≥ 0 then lastIndexOf xs c + 1
    else if x = c then 0 else -1

/-- Clamping of one JS `slice` bound against the string length: a negative
bound counts from the end, and both ends are clamped into `[0, len]`. -/
def sliceClamp (len : Nat) (i : Int) : Nat :=
  if i < 0 then ((len : Int) + i).toNat else min i.toNat len

/-- Embedding of JS `String.prototype.slice(b, e)`: the characters from the
clamped begin bound up to (excluding) the clamped end bound. -/
def jsSlice (s : JStr) (b e : Int) : JStr :=
  (s.take (sliceClamp s.length e)).drop (sliceClamp s.length b)

/-- Embedding of `gpii.app.messageBundles.getComponentKey`:
`messageKey.slice(0, messageKey.lastIndexOf("_"))`. -/
def getComponentKey (messageKey : JStr) : JStr :=
  jsSlice messageKey 0 (lastIndexOf messageKey '_')

/-- Embedding of `gpii.app.messageBundles.getSimpleMessageKey`:
`messageKey.slice(messageKey.lastIndexOf("_") + 1)` (one-argument slice runs
to the end of the string). -/
def getSimpleMessageKey (messageKey : JStr) : JStr :=
  jsSlice messageKey (lastIndexOf messageKey '_' + 1) messageKey.length

/-- A component's messages: simple message key mapped to message text. -/
abbrev Bundle := List (JStr × JStr)

/-- All messages grouped by component key. -/
abbrev Grouped := List (JStr × Bundle)

/-- JS object field read on a bundle. -/
def bundleLookup (bundle : Bundle) (k : JStr) : Option JStr :=
  (bundle.find? (fun p => p.1 == k)).map Prod.snd

/-- The effect of `fluid.extend(true, {}, bundle, {k: v})` on a flat message
bundle: the existing entry for `k` (if any) is overridden in place, any other
entry kept, a fresh key appended. -/
def bundleInsert : Bundle → JStr → JStr → Bundle
  | [], k, v => [(k, v)]
  | p :: rest, k, v =>
    if p.1 = k then (k, v) :: rest else p :: bundleInsert rest k v

/-- JS object field read on the grouped-messages object. -/
def groupedLookup (g : Grouped) (k : JStr) : Option Bundle :=
  (g.find? (fun p => p.1 == k)).map Prod.snd

/-- JS object field write on the grouped-messages object. -/
def groupedSet : Grouped → JStr → Bundle → Grouped
  | [], k, b => [(k, b)]
  | p :: rest, k, b =>
    if p.1 = k then (k, b) :: rest else p :: groupedSet rest k b

/-- One iteration of the `fluid.each` body of `groupMessagesByComponent`:
merge the message into the bundle of its component key (an absent bundle
starts from the empty object). -/
def addMessage (grouped : Grouped) (kv : JStr × JStr) : Grouped :=
  groupedSet grouped (getComponentKey kv.1)
    (bundleInsert ((groupedLookup grouped (getComponentKey kv.1)).getD [])
      (getSimpleMessageKey kv.1) kv.2)

/-- Embedding of `gpii.app.messageBundles.groupMessagesByComponent`. -/
def groupMessagesByComponent (messages : List (JStr × JStr)) : Grouped :=
  messages.foldl addMessage []

/-- The grouped-messages object holds a message under component key `ck`
with simple key `sk`. -/
def hasMessage (g : Grouped) (ck sk : JStr) : Prop :=
  ∃ b, groupedLookup g ck = some b ∧ ∃ w, bundleLookup b sk = some w

end MessageBundles

namespace SurveyServer

/-- A connected client socket of the mock survey server, identified
abstractly. -/
structure WebSocketConn where
  connId : Nat
deriving DecidableEq, Repr

/-- A JSON scalar value occurring in a survey payload. -/
inductive JsonValue where
  | str (s : String)
  | num (n : Int)
  | bool (b : Bool)
  | null
deriving DecidableEq, Repr

/-- A flat JSON object payload as sent by the mock survey server. -/
structure Payload where
  fields : List (String × JsonValue)
deriving DecidableEq, Repr

/-- Serialization of one JSON scalar, as `JSON.stringify` renders it. -/
def stringifyValue : JsonValue → String
  | .str s => "\x22" ++ s ++ "\x22"
  | .num n => toString n
  | .bool b => if b then "true" else "false"
  | .null => "null"

/-- Embedding of `JSON.stringify` for the flat payloads above. -/
def stringify (p : Payload) : String :=
  "\x7b" ++ String.intercalate ","
      (p.fields.map (fun kv => "\x22" ++ kv.1 ++ "\x22:" ++ stringifyValue kv.2))
    ++ "\x7d"

/-- The member default of `gpii.tests.mocks.surveyServer`: `webSocket: null`
until a client connects. -/
def initialWebSocket : Option WebSocketConn := none

/-- Embedding of `gpii.tests.mocks.surveyServer.sendPayload`: with no
connection (`webSocket` null/falsy) nothing is sent and the call returns
normally; with a connection the serialized payload is sent on it.  The
result lists the send operations performed. -/
def sendPayload (webSocket : Option WebSocketConn) (payload : Payload) :
    List (WebSocketConn × String) :=
  match webSocket with
  | some ws => [(ws, stringify payload)]
  | none => []

end SurveyServer

theorem mem_registryRemove {reg : Registry} {id : String} {p : String × Trigger} :
    p ∈ registryRemove reg id ↔ p ∈ reg ∧ p.1 ≠ id := by
  simp [registryRemove, List.mem_filter, bne_iff_ne]

theorem registryLookup_eq_none_iff {reg : Registry} {id : String} :
    registryLookup reg id = none ↔ ∀ p ∈ reg, p.1 ≠ id := by
  simp [registryLookup, List.find?_eq_none]

theorem registryLookup_remove_self (reg : Registry) (id : String) :
    registryLookup (registryRemove reg id) id = none := by
  rw [registryLookup_eq_none_iff]
  intro p hp
  exact (mem_registryRemove.mp hp).2

theorem registryRemove_of_lookup_none {reg : Registry} {id : String}
    (h : registryLookup reg id = none) : registryRemove reg id = reg := by
  rw [registryLookup_eq_none_iff] at h
  apply List.filter_eq_self.mpr
  intro p hp
  simpa [bne_iff_ne] using h p hp

theorem newlyFired_register (s : ManagerState) (t : Trigger) (now : Int) :
    newlyFired s (.register t now) =
      if hasUnknownConditionType t then []
      else if triggerSatisfied t s.facts now then [t] else [] := by
  by_cases hu : hasUnknownConditionType t <;>
    by_cases hs : triggerSatisfied t s.facts now <;>
      simp [newlyFired, step, registerTrigger, hu, hs, List.drop_left, List.drop_length]

theorem newlyFired_remove (s : ManagerState) (t : Trigger) :
    newlyFired s (.remove t) = [] := by
  simp [newlyFired, step, removeTrigger, List.drop_length]

theorem newlyFired_change (s : ManagerState) (k : String) (v : Int) (now : Int) :
    newlyFired s (.change k v now) =
      (s.registry.filter
        (fun p => triggerSatisfied p.2 (s.facts.set k v) now)).map Prod.snd := by
  simp [newlyFired, step, changeFact, fireSatisfied, List.drop_left]

theorem occurred_step (s : ManagerState) (e : Event) :
    (step s e).occurred = s.occurred ++ newlyFired s e := by
  cases e with
  | register t now =>
    rw [newlyFired_register]
    by_cases hu : hasUnknownConditionType t <;>
      by_cases hs : triggerSatisfied t s.facts now <;>
        simp [step, registerTrigger, hu, hs]
  | remove t => simp [newlyFired_remove, step, removeTrigger]
  | change k v now => simp [newlyFired_change, step, changeFact, fireSatisfied]

theorem registry_step_register (s : ManagerState) (t : Trigger) (now : Int) :
    (step s (.register t now)).registry =
      if hasUnknownConditionType t then s.registry
      else if triggerSatisfied t s.facts now then registryRemove s.registry t.id
      else (t.id, t) :: registryRemove s.registry t.id := by
  by_cases hu : hasUnknownConditionType t <;>
    by_cases hs : triggerSatisfied t s.facts now <;>
      simp [step, registerTrigger, hu, hs]

theorem registry_step_remove (s : ManagerState) (t : Trigger) :
    (step s (.remove t)).registry = registryRemove s.registry t.id := rfl

theorem registry_step_change (s : ManagerState) (k : String) (v : Int) (now : Int) :
    (step s (.change k v now)).registry =
      s.registry.filter
        (fun p => !(triggerSatisfied p.2 (s.facts.set k v) now)) := rfl

theorem fst_not_mem_registryRemove (reg : Registry) (id : String) :
    id ∉ (registryRemove reg id).map Prod.fst := by
  intro hmem
  rcases List.mem_map.mp hmem with ⟨p, hp, hfst⟩
  exact (mem_registryRemove.mp hp).2 hfst

theorem goodRegistry_filter {reg : Registry} (h : goodRegistry reg)
    (p : String × Trigger → Bool) : goodRegistry (reg.filter p) := by
  constructor
  · exact List.Nodup.sublist ((reg.filter_sublist).map Prod.fst) h.1
  · intro q hq
    exact h.2 q (List.mem_of_mem_filter hq)

theorem goodRegistry_registryRemove {reg : Registry} (h : goodRegistry reg)
    (id : String) : goodRegistry (registryRemove reg id) :=
  goodRegistry_filter h _

theorem goodRegistry_step {s : ManagerState} (e : Event)
    (h : goodRegistry s.registry) : goodRegistry (step s e).registry := by
  cases e with
  | register t now =>
    rw [registry_step_register]
    by_cases hu : hasUnknownConditionType t
    · simpa [hu] using h
    · by_cases hs : triggerSatisfied t s.facts now
      · simpa [hu, hs] using goodRegistry_registryRemove h t.id
      · simp only [hu, hs, if_false, if_true, Bool.false_eq_true, if_neg, not_false_iff]
        refine ⟨?_, ?_⟩
        · exact List.Nodup.cons (fst_not_mem_registryRemove s.registry t.id)
            (goodRegistry_registryRemove h t.id).1
        · intro q hq
          rcases List.mem_cons.mp hq with hq | hq
          · simp [hq]
          · exact h.2 q (mem_registryRemove.mp hq).1
  | remove t =>
    rw [registry_step_remove]
    exact goodRegistry_registryRemove h t.id
  | change k v now =>
    rw [registry_step_change]
    exact goodRegistry_filter h _

theorem goodRegistry_runFrom {s : ManagerState} (events : List Event)
    (h : goodRegistry s.registry) : goodRegistry (runFrom s events).registry := by
  induction events generalizing s with
  | nil => exact h
  | cons e rest ih => exact ih (goodRegistry_step e h)

theorem goodRegistry_run (events : List Event) :
    goodRegistry (run events).registry :=
  goodRegistry_runFrom events ⟨List.nodup_nil, by simp [ManagerState.initial]⟩

theorem facts_step_register (s : ManagerState) (t : Trigger) (now : Int) :
    (step s (.register t now)).facts = s.facts := by
  by_cases hu : hasUnknownConditionType t <;>
    by_cases hs : triggerSatisfied t s.facts now <;>
      simp [step, registerTrigger, hu, hs]

theorem facts_step_change (s : ManagerState) (k : String) (v : Int) (now : Int) :
    (step s (.change k v now)).facts = s.facts.set k v := rfl

theorem newlyFired_satisfied {s : ManagerState} {e : Event} {t : Trigger}
    (ht : t ∈ newlyFired s e) :
    triggerSatisfied t (step s e).facts (eventNow e) = true := by
  cases e with
  | register t' now =>
    rw [newlyFired_register] at ht
    by_cases hu : hasUnknownConditionType t'
    · simp [hu] at ht
    · by_cases hs : triggerSatisfied t' s.facts now
      · simp [hu, hs] at ht
        subst ht
        simpa [eventNow, facts_step_register] using hs
      · simp [hu, hs] at ht
  | remove t' =>
    rw [newlyFired_remove] at ht
    simp at ht
  | change k v now =>
    rw [newlyFired_change] at ht
    rcases List.mem_map.mp ht with ⟨p, hp, rfl⟩
    simpa [eventNow, facts_step_change] using List.of_mem_filter hp

theorem newlyFired_registered {s : ManagerState} {e : Event} {t : Trigger}
    (hg : goodRegistry s.registry) (ht : t ∈ newlyFired s e) :
    (t.id, t) ∈ s.registry ∨ ∃ now, e = Event.register t now := by
  cases e with
  | register t' now =>
    rw [newlyFired_register] at ht
    by_cases hu : hasUnknownConditionType t'
    · simp [hu] at ht
    · by_cases hs : triggerSatisfied t' s.facts now
      · simp [hu, hs] at ht
        subst ht
        exact Or.inr ⟨now, rfl⟩
      · simp [hu, hs] at ht
  | remove t' =>
    rw [newlyFired_remove] at ht
    simp at ht
  | change k v now =>
    rw [newlyFired_change] at ht
    rcases List.mem_map.mp ht with ⟨p, hp, rfl⟩
    have hmem := List.mem_of_mem_filter hp
    left
    rcases p with ⟨x, tr⟩
    have hx : x = tr.id := hg.2 ⟨x, tr⟩ hmem
    subst hx
    exact hmem

theorem registered_satisfied_fires {s : ManagerState} {t : Trigger} {k : String}
    {v now : Int} (hreg : (t.id, t) ∈ s.registry)
    (hsat : triggerSatisfied t (s.facts.set k v) now = true) :
    t ∈ newlyFired s (.change k v now) := by
  rw [newlyFired_change]
  exact List.mem_map.mpr ⟨(t.id, t), List.mem_filter.mpr ⟨hreg, hsat⟩, rfl⟩

theorem register_satisfied_fires {s : ManagerState} {t : Trigger} {now : Int}
    (hk : hasUnknownConditionType t = false)
    (hsat : triggerSatisfied t s.facts now = true) :
    t ∈ newlyFired s (.register t now) := by
  rw [newlyFired_register]
  simp [hk, hsat]

theorem eq_of_fst_eq_of_nodup {reg : Registry} (hnd : (reg.map Prod.fst).Nodup)
    {p q : String × Trigger} (hp : p ∈ reg) (hq : q ∈ reg) (h : p.1 = q.1) :
    p = q := by
  induction reg with
  | nil => cases hp
  | cons a rest ih =>
    rw [List.map_cons, List.nodup_cons] at hnd
    rcases List.mem_cons.mp hp with rfl | hp' <;>
      rcases List.mem_cons.mp hq with h' | hq'
    · rw [h']
    · exact absurd (h ▸ List.mem_map_of_mem Prod.fst hq') hnd.1
    · exact absurd (h ▸ List.mem_map_of_mem Prod.fst hp') (h' ▸ hnd.1)
    · exact ih hnd.2 hp' hq'

theorem fired_lookup_none {s : ManagerState} {e : Event} {t : Trigger}
    (hg : goodRegistry s.registry) (ht : t ∈ newlyFired s e) :
    registryLookup (step s e).registry t.id = none := by
  cases e with
  | register t' now =>
    rw [newlyFired_register] at ht
    by_cases hu : hasUnknownConditionType t'
    · simp [hu] at ht
    · by_cases hs : triggerSatisfied t' s.facts now
      · simp [hu, hs] at ht
        subst ht
        rw [registry_step_register]
        simp only [hu, hs, if_true, if_false, Bool.false_eq_true, if_neg,
          not_false_iff]
        exact registryLookup_remove_self s.registry t.id
      · simp [hu, hs] at ht
  | remove t' =>
    rw [newlyFired_remove] at ht
    simp at ht
  | change k v now =>
    rw [newlyFired_change] at ht
    rcases List.mem_map.mp ht with ⟨q, hq, rfl⟩
    have hqmem := List.mem_of_mem_filter hq
    have hqsat := List.of_mem_filter hq
    have hqid : q.1 = q.2.id := hg.2 q hqmem
    rw [registry_step_change, registryLookup_eq_none_iff]
    intro p hp hpid
    have hpmem := List.mem_of_mem_filter hp
    have hpunsat := List.of_mem_filter hp
    have hpq : p = q := eq_of_fst_eq_of_nodup hg.1 hpmem hqmem (by rw [hpid, hqid])
    rw [hpq] at hpunsat
    rw [hqsat] at hpunsat
    simp at hpunsat

theorem lookup_none_step {s : ManagerState} {e : Event} {id : String}
    (h : registryLookup s.registry id = none)
    (hne : ∀ t now, e = Event.register t now → t.id ≠ id) :
    registryLookup (step s e).registry id = none := by
  rw [registryLookup_eq_none_iff] at h ⊢
  cases e with
  | register t now =>
    have hid := hne t now rfl
    rw [registry_step_register]
    by_cases hu : hasUnknownConditionType t
    · simpa [hu] using h
    · by_cases hs : triggerSatisfied t s.facts now
      · simp only [hu, hs, if_true, if_false, Bool.false_eq_true, if_neg,
          not_false_iff]
        intro p hp
        exact h p (mem_registryRemove.mp hp).1
      · simp only [hu, hs, if_false, Bool.false_eq_true, if_neg, not_false_iff]
        intro p hp
        rcases List.mem_cons.mp hp with rfl | hp'
        · exact hid
        · exact h p (mem_registryRemove.mp hp').1
  | remove t =>
    rw [registry_step_remove]
    intro p hp
    exact h p (mem_registryRemove.mp hp).1
  | change k v now =>
    rw [registry_step_change]
    intro p hp
    exact h p (List.mem_of_mem_filter hp)

theorem regIndicator_remove_le (reg : Registry) (id : String) (t : Trigger) :
    regIndicator (registryRemove reg id) t ≤ regIndicator reg t := by
  unfold regIndicator
  by_cases h : (t.id, t) ∈ registryRemove reg id
  · simp [h, mem_registryRemove.mp h |>.1]
  · simp [h]

theorem count_fired_add_indicator {reg : Registry} (hg : goodRegistry reg)
    (t : Trigger) (P : String × Trigger → Bool) :
    ((reg.filter P).map Prod.snd).count t +
      regIndicator (reg.filter (fun p => !(P p))) t ≤ regIndicator reg t := by
  induction reg with
  | nil => simp [regIndicator]
  | cons a rest ih =>
    have hnd := hg.1
    rw [List.map_cons, List.nodup_cons] at hnd
    have hgrest : goodRegistry rest :=
      ⟨hnd.2, fun p hp => hg.2 p (List.mem_cons_of_mem a hp)⟩
    have haid : a.1 = a.2.id := hg.2 a (List.mem_cons_self a rest)
    by_cases h2 : a.2 = t
    · have ha : a = (t.id, t) := by
        rcases a with ⟨x, tr⟩
        simp only at h2 haid
        rw [h2] at haid
        rw [haid, h2]
      have htid_notin : t.id ∉ rest.map Prod.fst := by
        rw [ha] at hnd
        exact hnd.1
      have hrest_count : ((rest.filter P).map Prod.snd).count t = 0 := by
        rw [List.count_eq_zero]
        intro hmem
        rcases List.mem_map.mp hmem with ⟨q, hq, hq2⟩
        have hqmem := List.mem_of_mem_filter hq
        have hqid : q.1 = q.2.id := hgrest.2 q hqmem
        apply htid_notin
        rw [← hq2, ← hqid]
        exact List.mem_map_of_mem Prod.fst hqmem
      have hrest_ind : regIndicator (rest.filter (fun p => !(P p))) t = 0 := by
        unfold regIndicator
        rw [if_neg]
        intro hmem
        apply htid_notin
        have := List.mem_of_mem_filter hmem
        simpa using List.mem_map_of_mem Prod.fst this
      by_cases hP : P a
      · rw [List.filter_cons_of_pos hP, List.map_cons,
          List.filter_cons_of_neg (by simp [hP])]
        rw [ha]
        simp only [List.count_cons_self, hrest_count]
        rw [hrest_ind]
        simp [regIndicator, ha]
      · rw [List.filter_cons_of_neg hP, List.filter_cons_of_pos (by simp [hP])]
        rw [hrest_count]
        have : regIndicator (a :: rest.filter (fun p => !(P p))) t = 1 := by
          unfold regIndicator
          rw [if_pos]
          rw [ha]
          exact List.mem_cons_self _ _
        rw [this]
        simp [regIndicator, ha]
    · have ha_ne : a ≠ (t.id, t) := fun h => h2 (by rw [h])
      have hcount_eq :
          ∀ l : List (String × Trigger),
            ((a :: l).map Prod.snd).count t = (l.map Prod.snd).count t := by
        intro l
        rw [List.map_cons, List.count_cons_of_ne (fun h => h2 h.symm)]
      have hind_eq : ∀ l : Registry,
          regIndicator (a :: l) t = regIndicator l t := by
        intro l
        unfold regIndicator
        by_cases hm : (t.id, t) ∈ l
        · simp [hm, List.mem_cons_of_mem]
        · rw [if_neg, if_neg hm]
          intro hmem
          rcases List.mem_cons.mp hmem with h | h
          · exact ha_ne h.symm
          · exact hm h
      by_cases hP : P a
      · rw [List.filter_cons_of_pos hP, List.filter_cons_of_neg (by simp [hP]),
          hcount_eq]
        calc ((rest.filter P).map Prod.snd).count t +
              regIndicator (rest.filter (fun p => !(P p))) t ≤
              regIndicator rest t := ih hgrest
          _ = regIndicator (a :: rest) t := (hind_eq rest).symm
      · rw [List.filter_cons_of_neg hP, List.filter_cons_of_pos (by simp [hP]),
          hind_eq]
        calc ((rest.filter P).map Prod.snd).count t +
              regIndicator (rest.filter (fun p => !(P p))) t ≤
              regIndicator rest t := ih hgrest
          _ = regIndicator (a :: rest) t := (hind_eq rest).symm

theorem timesRegistered_cons (e : Event) (es : List Event) (t : Trigger) :
    timesRegistered (e :: es) t = timesRegistered [e] t + timesRegistered es t := by
  unfold timesRegistered
  cases e with
  | register t' now =>
    by_cases h : t' == t <;> simp [List.filter, h, Nat.add_comm]
  | remove t' => simp [List.filter]
  | change k v now => simp [List.filter]

theorem regIndicator_cons_ne {a : String × Trigger} {t : Trigger}
    (l : Registry) (h : a ≠ (t.id, t)) :
    regIndicator (a :: l) t = regIndicator l t := by
  unfold regIndicator
  by_cases hm : (t.id, t) ∈ l
  · simp [hm, List.mem_cons_of_mem]
  · rw [if_neg, if_neg hm]
    intro hmem
    rcases List.mem_cons.mp hmem with h' | h'
    · exact h h'.symm
    · exact hm h'

theorem timesRegistered_single_register (t' : Trigger) (now : Int) (t : Trigger) :
    timesRegistered [Event.register t' now] t = if t' = t then 1 else 0 := by
  by_cases h : t' = t
  · simp [timesRegistered, List.filter, h]
  · have hb : (t' == t) = false := by simpa using h
    simp [timesRegistered, List.filter, hb, h]

theorem count_step (s : ManagerState) (e : Event) (t : Trigger)
    (hg : goodRegistry s.registry) :
    (step s e).occurred.count t + regIndicator (step s e).registry t ≤
      s.occurred.count t + regIndicator s.registry t + timesRegistered [e] t := by
  cases e with
  | remove t' =>
    have h1 : (step s (.remove t')).occurred = s.occurred := rfl
    rw [h1, registry_step_remove]
    have h2 := regIndicator_remove_le s.registry t'.id t
    omega
  | change k v now =>
    rw [occurred_step, newlyFired_change, registry_step_change, List.count_append]
    have h1 := count_fired_add_indicator hg t
      (fun p => triggerSatisfied p.2 (s.facts.set k v) now)
    omega
  | register t' now =>
    rw [occurred_step, newlyFired_register, registry_step_register,
      timesRegistered_single_register]
    by_cases hu : hasUnknownConditionType t'
    · simp only [hu, if_true]
      rw [List.count_append, List.count_nil]
      by_cases ht : t' = t <;> simp [ht]
    · by_cases hs : triggerSatisfied t' s.facts now
      · simp only [hu, hs, if_true, if_false, Bool.false_eq_true, if_neg,
          not_false_iff]
        rw [List.count_append]
        by_cases ht : t' = t
        · subst ht
          have hind : regIndicator (registryRemove s.registry t'.id) t' = 0 := by
            unfold regIndicator
            rw [if_neg]
            intro hmem
            exact (mem_registryRemove.mp hmem).2 rfl
          have hc : ([t'] : List Trigger).count t' = 1 := by simp
          rw [hc, hind, if_pos rfl]
          omega
        · have hcnt : ([t'] : List Trigger).count t = 0 := by
            rw [List.count_eq_zero]
            intro hmem
            rw [List.mem_singleton] at hmem
            exact ht hmem.symm
          have hind := regIndicator_remove_le s.registry t'.id t
          rw [hcnt, if_neg ht]
          omega
      · simp only [hu, hs, if_false, Bool.false_eq_true, if_neg, not_false_iff]
        rw [List.count_append, List.count_nil]
        by_cases ht : t' = t
        · subst ht
          have hind : regIndicator ((t'.id, t') :: registryRemove s.registry t'.id)
              t' = 1 := by
            unfold regIndicator
            rw [if_pos (List.mem_cons_self _ _)]
          rw [hind, if_pos rfl]
          omega
        · have hne : (t'.id, t') ≠ (t.id, t) := by
            intro h
            exact ht (congrArg Prod.snd h)
          rw [regIndicator_cons_ne _ hne, if_neg ht]
          have hind := regIndicator_remove_le s.registry t'.id t
          omega

theorem count_runFrom (events : List Event) (s : ManagerState) (t : Trigger)
    (hg : goodRegistry s.registry) :
    (runFrom s events).occurred.count t +
        regIndicator (runFrom s events).registry t ≤
      s.occurred.count t + regIndicator s.registry t + timesRegistered events t := by
  induction events generalizing s with
  | nil => simp [runFrom, timesRegistered, List.filter]
  | cons e rest ih =>
    have h1 := count_step s e t hg
    have h2 := ih (step s e) (goodRegistry_step e hg)
    have h3 := timesRegistered_cons e rest t
    have h4 : runFrom s (e :: rest) = runFrom (step s e) rest := rfl
    rw [h4, h3]
    omega

theorem count_run_le (events : List Event) (t : Trigger) :
    (run events).occurred.count t ≤ timesRegistered events t := by
  have h := count_runFrom events ManagerState.initial t
    ⟨List.nodup_nil, by simp [ManagerState.initial]⟩
  have h0 : (ManagerState.initial.occurred).count t = 0 := rfl
  have h1 : regIndicator ManagerState.initial.registry t = 0 := rfl
  rw [h0, h1] at h
  unfold run
  omega

theorem newlyFired_src {s : ManagerState} {e : Event} {t : Trigger}
    (ht : t ∈ newlyFired s e) :
    (∃ p ∈ s.registry, p.2 = t) ∨ ∃ now, e = Event.register t now := by
  cases e with
  | register t' now =>
    rw [newlyFired_register] at ht
    by_cases hu : hasUnknownConditionType t'
    · simp [hu] at ht
    · by_cases hs : triggerSatisfied t' s.facts now
      · simp [hu, hs] at ht
        subst ht
        exact Or.inr ⟨now, rfl⟩
      · simp [hu, hs] at ht
  | remove t' =>
    rw [newlyFired_remove] at ht
    simp at ht
  | change k v now =>
    rw [newlyFired_change] at ht
    rcases List.mem_map.mp ht with ⟨p, hp, rfl⟩
    exact Or.inl ⟨p, List.mem_of_mem_filter hp, rfl⟩

theorem registry_step_src {s : ManagerState} {e : Event} {p : String × Trigger}
    (hp : p ∈ (step s e).registry) :
    p ∈ s.registry ∨ ∃ now, e = Event.register p.2 now := by
  cases e with
  | register t' now =>
    rw [registry_step_register] at hp
    by_cases hu : hasUnknownConditionType t'
    · rw [if_pos hu] at hp
      exact Or.inl hp
    · by_cases hs : triggerSatisfied t' s.facts now
      · rw [if_neg hu, if_pos hs] at hp
        exact Or.inl (mem_registryRemove.mp hp).1
      · rw [if_neg hu, if_neg hs] at hp
        rcases List.mem_cons.mp hp with rfl | hp'
        · exact Or.inr ⟨now, rfl⟩
        · exact Or.inl (mem_registryRemove.mp hp').1
  | remove t' =>
    rw [registry_step_remove] at hp
    exact Or.inl (mem_registryRemove.mp hp).1
  | change k v now =>
    rw [registry_step_change] at hp
    exact Or.inl (List.mem_of_mem_filter hp)

theorem provenance_runFrom {P : Trigger → Prop} (events : List Event)
    (s : ManagerState) (hocc : ∀ t ∈ s.occurred, P t)
    (hreg : ∀ p ∈ s.registry, P p.2)
    (hev : ∀ t now, Event.register t now ∈ events → P t) :
    (∀ t ∈ (runFrom s events).occurred, P t) ∧
      ∀ p ∈ (runFrom s events).registry, P p.2 := by
  induction events generalizing s with
  | nil => exact ⟨hocc, hreg⟩
  | cons e rest ih =>
    have hocc' : ∀ t ∈ (step s e).occurred, P t := by
      intro t htmem
      rw [occurred_step] at htmem
      rcases List.mem_append.mp htmem with h | h
      · exact hocc t h
      · rcases newlyFired_src h with ⟨p, hpmem, hpt⟩ | ⟨now, rfl⟩
        · exact hpt ▸ hreg p hpmem
        · exact hev t now (List.mem_cons_self _ _)
    have hreg' : ∀ p ∈ (step s e).registry, P p.2 := by
      intro p hpmem
      rcases registry_step_src hpmem with h | ⟨now, rfl⟩
      · exact hreg p h
      · exact hev p.2 now (List.mem_cons_self _ _)
    exact ih (step s e) hocc' hreg'
      (fun t now h => hev t now (List.mem_cons_of_mem e h))

theorem occurred_run_registered (events : List Event) :
    ∀ t ∈ (run events).occurred, ∃ now, Event.register t now ∈ events := by
  have h := provenance_runFrom (P := fun t => ∃ now, Event.register t now ∈ events)
    events ManagerState.initial (by simp [ManagerState.initial])
    (by simp [ManagerState.initial]) (fun t now hmem => ⟨now, hmem⟩)
  exact h.1

/-- Claim C1: a registered trigger fires exactly when all its conditions are
satisfied at an evaluation point, and fires at most once per registration.
Part one: every newly fired trigger has all its conditions satisfied under the
step's facts and clock.  Part two: every newly fired trigger was registered
(either live in the registry or being registered by this very step).  Part
three: a registered trigger whose conditions all become satisfied on a fact
change fires in that step.  Part four: over any event trace, a trigger occurs
at most as many times as it was registered. -/
theorem trigger_fires_iff_satisfied_at_most_once :
    (∀ (s : ManagerState) (e : Event) (t : Trigger), t ∈ newlyFired s e →
      triggerSatisfied t (step s e).facts (eventNow e) = true) ∧
    (∀ (s : ManagerState) (e : Event) (t : Trigger), goodRegistry s.registry →
      t ∈ newlyFired s e →
      (t.id, t) ∈ s.registry ∨ ∃ now, e = Event.register t now) ∧
    (∀ (s : ManagerState) (t : Trigger) (k : String) (v now : Int),
      (t.id, t) ∈ s.registry →
      triggerSatisfied t (s.facts.set k v) now = true →
      t ∈ newlyFired s (.change k v now)) ∧
    (∀ (events : List Event) (t : Trigger),
      (run events).occurred.count t ≤ timesRegistered events t) :=
  ⟨fun _ _ _ ht => newlyFired_satisfied ht,
   fun _ _ _ hg ht => newlyFired_registered hg ht,
   fun _ _ _ _ _ hreg hsat => registered_satisfied_fires hreg hsat,
   fun events t => count_run_le events t⟩

/-- Witness for C1: in a state where `trigger_1` is registered, setting the
keyed-in fact at a time within the threshold makes it fire. -/
theorem trigger_fires_iff_satisfied_witness :
    sampleTrigger ∈ newlyFired ⟨[("trigger_1", sampleTrigger)], [], []⟩
      (Event.change "keyedInTimestamp" 0 0) :=
  trigger_fires_iff_satisfied_at_most_once.2.2.1
    ⟨[("trigger_1", sampleTrigger)], [], []⟩ sampleTrigger "keyedInTimestamp"
    0 0 (by decide) (by decide)

/-- Claim C2 counterexample: as stated ("in every state reachable after a
trigger has fired, the registry contains no entry for that trigger's id") the
claim fails, because the id may be registered again after the fire: in the
trace below `trigger_1` fires and a later re-registration puts the id back in
the registry. -/
theorem fired_id_absent_counterexample :
    sampleTrigger ∈ (run [Event.register sampleTrigger 0,
        Event.change "keyedInTimestamp" 0 0]).occurred ∧
      registryLookup (run [Event.register sampleTrigger 0,
        Event.change "keyedInTimestamp" 0 0,
        Event.register sampleTrigger 2000]).registry "trigger_1" =
        some sampleTrigger := by decide

/-- Claim C2 (amended): whenever a trigger fires, its id is removed from the
registry atomically with the firing step, and it stays absent under every
subsequent step until a new `registerTrigger` with that id. -/
theorem fired_id_absent_until_reregistered :
    (∀ (s : ManagerState) (e : Event) (t : Trigger), goodRegistry s.registry →
      t ∈ newlyFired s e →
      registryLookup (step s e).registry t.id = none) ∧
    (∀ (s : ManagerState) (e : Event) (id : String),
      registryLookup s.registry id = none →
      (∀ t now, e = Event.register t now → t.id ≠ id) →
      registryLookup (step s e).registry id = none) :=
  ⟨fun _ _ _ hg ht => fired_lookup_none hg ht,
   fun _ _ _ h hne => lookup_none_step h hne⟩

/-- Witness for C2 (amended): after `trigger_1` fires on a fact change, its
id is gone from the registry. -/
theorem fired_id_absent_witness :
    registryLookup (step ⟨[("trigger_1", sampleTrigger)], [], []⟩
      (Event.change "keyedInTimestamp" 0 0)).registry "trigger_1" = none :=
  fired_id_absent_until_reregistered.1
    ⟨[("trigger_1", sampleTrigger)], [], []⟩
    (Event.change "keyedInTimestamp" 0 0) sampleTrigger ⟨by decide, by decide⟩
    (by decide)

/-- Claim C3: a trigger with a condition whose type has no registered
predicate fails registration with `UnknownConditionType`, and the failed
registration leaves the manager state (in particular the registry) entirely
unchanged. -/
theorem unknown_condition_type_fails_registration :
    ∀ (s : ManagerState) (t : Trigger) (now : Int),
      hasUnknownConditionType t = true →
      registerTrigger s t now = Except.error "UnknownConditionType" ∧
        step s (.register t now) = s := by
  intro s t now h
  exact ⟨by simp [registerTrigger, h], by simp [step, registerTrigger, h]⟩

/-- Witness for C3: registering a trigger with condition type `unknownType`
fails and changes nothing. -/
theorem unknown_condition_type_witness :
    registerTrigger ManagerState.initial ⟨"t2", [⟨"unknownType", 5⟩]⟩ 0 =
        Except.error "UnknownConditionType" ∧
      step ManagerState.initial
        (.register ⟨"t2", [⟨"unknownType", 5⟩]⟩ 0) = ManagerState.initial :=
  unknown_condition_type_fails_registration ManagerState.initial
    ⟨"t2", [⟨"unknownType", 5⟩]⟩ 0 (by decide)

/-- Claim C4: in every reachable state of the trigger manager the registry
holds at most one handler per trigger id — its keys are pairwise distinct
after any event trace, including traces that re-register an id already
present. -/
theorem registry_at_most_one_handler_per_id (events : List Event) :
    ((run events).registry.map Prod.fst).Nodup :=
  (goodRegistry_run events).1

/-- Claim C5: semantics of `keyedInBefore`.  Satisfied exactly when
`(now - keyedInTimestamp) < value` (unsatisfied whenever the fact is unset);
re-evaluated on every fact change (a registered trigger made satisfied by a
fact change fires in that very step); and never re-evaluated by the passage
of time alone (the engine has no time step, and removal steps fire
nothing). -/
theorem keyedInBefore_semantics :
    (∀ (v : Int) (facts : Facts) (now ts : Int),
      facts.get "keyedInTimestamp" = some ts →
      (evalCondition ⟨"keyedInBefore", v⟩ facts now = true ↔ now - ts < v)) ∧
    (∀ (v : Int) (facts : Facts) (now : Int),
      facts.get "keyedInTimestamp" = none →
      evalCondition ⟨"keyedInBefore", v⟩ facts now = false) ∧
    (∀ (s : ManagerState) (t : Trigger) (k : String) (v now : Int),
      (t.id, t) ∈ s.registry →
      triggerSatisfied t (s.facts.set k v) now = true →
        t ∈ newlyFired s (.change k v now)) ∧
    (∀ (s : ManagerState) (t' : Trigger),
      (step s (.remove t')).occurred = s.occurred) := by
  refine ⟨?_, ?_, ?_, ?_⟩
  · intro v facts now ts h
    simp [evalCondition, h]
  · intro v facts now h
    simp [evalCondition, h]
  · intro s t k v now hreg hsat
    exact registered_satisfied_fires hreg hsat
  · intro s t'
    rfl

/-- Witness for C5: with the keyed-in fact set to 0, a `keyedInBefore 1000`
condition is satisfied at time 999 and unsatisfied with the fact unset. -/
theorem keyedInBefore_semantics_witness :
    (evalCondition ⟨"keyedInBefore", 1000⟩ [("keyedInTimestamp", 0)] 999 = true ↔
      (999 : Int) - 0 < 1000) ∧
      evalCondition ⟨"keyedInBefore", 1000⟩ [] 999 = false :=
  ⟨keyedInBefore_semantics.1 1000 [("keyedInTimestamp", 0)] 999 0 (by decide),
   keyedInBefore_semantics.2.1 1000 [] 999 (by decide)⟩

/-- Claim C6: every `onTriggerOccurred` payload is exactly (deep-equal to)
a trigger passed to `registerTrigger` earlier in the trace, and subscribers
are notified in registration order, each with that same payload. -/
theorem occurred_payload_exact_and_ordered :
    (∀ (events : List Event) (t : Trigger), t ∈ (run events).occurred →
      ∃ now, Event.register t now ∈ events) ∧
    (∀ (subs : List String) (t : Trigger),
      (notifySubscribers subs t).map Prod.fst = subs ∧
        ∀ pr ∈ notifySubscribers subs t, pr.2 = t) := by
  constructor
  · intro events t ht
    exact occurred_run_registered events t ht
  · intro subs t
    constructor
    · show (subs.map (fun sub => (sub, t))).map Prod.fst = subs
      rw [List.map_map]
      exact List.map_id subs
    · intro pr hpr
      rcases List.mem_map.mp hpr with ⟨sub, _, rfl⟩
      rfl

/-- Witness for C6: the single payload of the test trace is the registered
trigger itself. -/
theorem occurred_payload_exact_witness :
    ∃ now, Event.register sampleTrigger now ∈
      [Event.register sampleTrigger 0, Event.change "keyedInTimestamp" 0 0] :=
  occurred_payload_exact_and_ordered.1
    [Event.register sampleTrigger 0, Event.change "keyedInTimestamp" 0 0]
    sampleTrigger (by decide)

/-- Claim C7: `removeTrigger` with an id not in the registry is a no-op that
leaves the whole state unchanged (and, being a total function, raises
nothing); with the id present it deletes exactly that entry, leaving every
entry with a different id in place. -/
theorem removeTrigger_noop_or_deletes :
    (∀ (s : ManagerState) (t : Trigger),
      registryLookup s.registry t.id = none → removeTrigger s t = s) ∧
    (∀ (s : ManagerState) (t : Trigger),
      registryLookup (removeTrigger s t).registry t.id = none) ∧
    (∀ (s : ManagerState) (t : Trigger) (p : String × Trigger),
      p ∈ s.registry → p.1 ≠ t.id → p ∈ (removeTrigger s t).registry) := by
  refine ⟨?_, ?_, ?_⟩
  · intro s t h
    rcases s with ⟨reg, facts, occ⟩
    simp only [removeTrigger]
    rw [registryRemove_of_lookup_none h]
  · intro s t
    exact registryLookup_remove_self s.registry t.id
  · intro s t p hp hne
    exact mem_registryRemove.mpr ⟨hp, hne⟩

/-- Witness for C7: removing a never-registered trigger from the initial
state changes nothing. -/
theorem removeTrigger_noop_witness :
    removeTrigger ManagerState.initial sampleTrigger = ManagerState.initial :=
  removeTrigger_noop_or_deletes.1 ManagerState.initial sampleTrigger (by decide)

/-- Claim C8: firing is frame-local — on a fact change, any registered
trigger that does not itself fire keeps its registry entry untouched — and a
failed registration (unknown condition type) leaves the whole state, hence
every other trigger's entry and evaluation, unchanged. -/
theorem firing_frame_and_failure_isolation :
    (∀ (s : ManagerState) (k : String) (v now : Int) (t' : Trigger),
      (t'.id, t') ∈ s.registry →
      t' ∉ newlyFired s (.change k v now) →
      (t'.id, t') ∈ (step s (.change k v now)).registry) ∧
    (∀ (s : ManagerState) (t : Trigger) (now : Int),
      hasUnknownConditionType t = true → step s (.register t now) = s) := by
  constructor
  · intro s k v now t' hreg hnf
    rw [registry_step_change]
    refine List.mem_filter.mpr ⟨hreg, ?_⟩
    by_cases hsat : triggerSatisfied t' (s.facts.set k v) now
    · exact absurd (registered_satisfied_fires hreg hsat) hnf
    · simpa using hsat
  · intro s t now h
    simp [step, registerTrigger, h]

/-- Witness for C8: with two triggers registered, a fact change that fires
only `trigger_1` leaves the entry of the other trigger in the registry. -/
theorem firing_frame_witness :
    ("t9", Trigger.mk "t9" [⟨"keyedInBefore", -5⟩]) ∈
      (step ⟨[("trigger_1", sampleTrigger),
              ("t9", Trigger.mk "t9" [⟨"keyedInBefore", -5⟩])], [], []⟩
        (Event.change "keyedInTimestamp" 0 0)).registry :=
  firing_frame_and_failure_isolation.1
    ⟨[("trigger_1", sampleTrigger),
      ("t9", Trigger.mk "t9" [⟨"keyedInBefore", -5⟩])], [], []⟩
    "keyedInTimestamp" 0 0 (Trigger.mk "t9" [⟨"keyedInBefore", -5⟩])
    (by decide) (by decide)

namespace MessageBundles

theorem lastIndexOf_of_not_mem {s : JStr} {c : Char} (h : c ∉ s) :
    lastIndexOf s c = -1 := by
  induction s with
  | nil => rfl
  | cons x xs ih =>
    have hx : ¬(x = c) := fun hc => h (hc ▸ List.mem_cons_self x xs)
    have hxs : c ∉ xs := fun hc => h (List.mem_cons_of_mem x hc)
    rw [lastIndexOf, ih hxs]
    norm_num [hx]

theorem lastIndexOf_spec {s : JStr} {c : Char} (h : c ∈ s) :
    ∃ n : Nat, lastIndexOf s c = (n : Int) ∧ n < s.length ∧
      s[n]? = some c := by
  induction s with
  | nil => cases h
  | cons x xs ih =>
    by_cases hmem : c ∈ xs
    · rcases ih hmem with ⟨n, h1, h2, h3⟩
      refine ⟨n + 1, ?_, ?_, ?_⟩
      · rw [lastIndexOf, h1, if_pos (by omega)]
        push_cast
        ring
      · simpa using Nat.succ_lt_succ h2
      · simpa using h3
    · have hx : x = c := by
        rcases List.mem_cons.mp h with h' | h'
        · exact h'.symm
        · exact absurd h' hmem
      refine ⟨0, ?_, ?_, ?_⟩
      · rw [lastIndexOf, lastIndexOf_of_not_mem hmem, if_neg (by omega),
          if_pos hx]
        rfl
      · simp
      · simp [hx]

theorem jsSlice_zero_nat (s : JStr) (n : Nat) (h : n ≤ s.length) :
    jsSlice s 0 (n : Int) = s.take n := by
  unfold jsSlice sliceClamp
  rw [if_neg (by omega), if_neg (by omega)]
  simp [Nat.min_eq_left h]

theorem jsSlice_drop (s : JStr) (n : Nat) (h : n ≤ s.length) :
    jsSlice s (n : Int) (s.length : Int) = s.drop n := by
  unfold jsSlice sliceClamp
  rw [if_neg (by omega), if_neg (by omega)]
  simp [Nat.min_eq_left h, List.take_length]

theorem getComponentKey_eq_take {k : JStr} {n : Nat}
    (h : lastIndexOf k '_' = (n : Int)) (hlt : n < k.length) :
    getComponentKey k = k.take n := by
  rw [getComponentKey, h]
  exact jsSlice_zero_nat k n (le_of_lt hlt)

theorem getSimpleMessageKey_eq_drop {k : JStr} {n : Nat}
    (h : lastIndexOf k '_' = (n : Int)) (hlt : n < k.length) :
    getSimpleMessageKey k = k.drop (n + 1) := by
  rw [getSimpleMessageKey, h]
  have hcast : ((n : Int) + 1) = ((n + 1 : Nat) : Int) := by push_cast; ring
  rw [hcast]
  exact jsSlice_drop k (n + 1) (by omega)

theorem split_at_last_underscore {k : JStr} (h : '_' ∈ k) :
    getComponentKey k ++ '_' :: getSimpleMessageKey k = k := by
  rcases lastIndexOf_spec h with ⟨n, h1, h2, h3⟩
  rw [getComponentKey_eq_take h1 h2, getSimpleMessageKey_eq_drop h1 h2]
  have hget : k[n] = '_' := by
    have hsome := List.getElem?_eq_getElem h2
    rw [hsome] at h3
    exact Option.some.inj h3
  have hdrop : k.drop n = '_' :: k.drop (n + 1) := by
    rw [List.drop_eq_getElem_cons h2, hget]
  calc k.take n ++ '_' :: k.drop (n + 1) = k.take n ++ k.drop n := by
        rw [hdrop]
    _ = k := List.take_append_drop n k

theorem split_no_underscore {k : JStr} (h : '_' ∉ k) :
    getComponentKey k = k.dropLast ∧ getSimpleMessageKey k = k := by
  have h1 : lastIndexOf k '_' = -1 := lastIndexOf_of_not_mem h
  constructor
  · rw [getComponentKey, h1]
    unfold jsSlice sliceClamp
    have hneg : ((-1 : Int) < 0) := by norm_num
    have h0 : ¬((0 : Int) < 0) := by norm_num
    rw [if_pos hneg, if_neg h0]
    have htonat : ((k.length : Int) + (-1)).toNat = k.length - 1 := by omega
    rw [htonat]
    simp [List.dropLast_eq_take]
  · rw [getSimpleMessageKey, h1]
    have hcast : (-1 : Int) + 1 = ((0 : Nat) : Int) := by norm_num
    rw [hcast]
    rw [jsSlice_drop k 0 (Nat.zero_le _)]
    exact List.drop_zero k

theorem bundleLookup_cons (a w : JStr) (l : Bundle) (k : JStr) :
    bundleLookup ((a, w) :: l) k =
      if a = k then some w else bundleLookup l k := by
  by_cases h : a = k
  · simp [bundleLookup, List.find?, h]
  · have hb : (a == k) = false := beq_eq_false_iff_ne.mpr h
    simp [bundleLookup, List.find?, h, hb]

theorem bundleLookup_insert_self (b : Bundle) (k v : JStr) :
    bundleLookup (bundleInsert b k v) k = some v := by
  induction b with
  | nil => simp [bundleInsert, bundleLookup_cons]
  | cons p rest ih =>
    rcases p with ⟨a, w⟩
    by_cases hp : a = k
    · rw [bundleInsert, if_pos hp, bundleLookup_cons, if_pos rfl]
    · rw [bundleInsert, if_neg hp, bundleLookup_cons, if_neg hp]
      exact ih

theorem bundleLookup_insert_ne (b : Bundle) {k k' : JStr} (v : JStr)
    (h : k' ≠ k) :
    bundleLookup (bundleInsert b k v) k' = bundleLookup b k' := by
  induction b with
  | nil =>
    rw [bundleInsert, bundleLookup_cons, if_neg (fun hk => h hk.symm)]
  | cons p rest ih =>
    rcases p with ⟨a, w⟩
    by_cases hp : a = k
    · rw [bundleInsert, if_pos hp, bundleLookup_cons, bundleLookup_cons,
        if_neg (fun hk => h hk.symm), if_neg (fun hk => h (hp ▸ hk).symm)]
    · rw [bundleInsert, if_neg hp, bundleLookup_cons, bundleLookup_cons, ih]

theorem groupedLookup_cons (a : JStr) (w : Bundle) (l : Grouped) (k : JStr) :
    groupedLookup ((a, w) :: l) k =
      if a = k then some w else groupedLookup l k := by
  by_cases h : a = k
  · simp [groupedLookup, List.find?, h]
  · have hb : (a == k) = false := beq_eq_false_iff_ne.mpr h
    simp [groupedLookup, List.find?, h, hb]

theorem groupedLookup_set_self (g : Grouped) (k : JStr) (b : Bundle) :
    groupedLookup (groupedSet g k b) k = some b := by
  induction g with
  | nil => simp [groupedSet, groupedLookup_cons]
  | cons p rest ih =>
    rcases p with ⟨a, w⟩
    by_cases hp : a = k
    · rw [groupedSet, if_pos hp, groupedLookup_cons, if_pos rfl]
    · rw [groupedSet, if_neg hp, groupedLookup_cons, if_neg hp]
      exact ih

theorem groupedLookup_set_ne (g : Grouped) {k k' : JStr} (b : Bundle)
    (h : k' ≠ k) :
    groupedLookup (groupedSet g k b) k' = groupedLookup g k' := by
  induction g with
  | nil =>
    rw [groupedSet, groupedLookup_cons, if_neg (fun hk => h hk.symm)]
  | cons p rest ih =>
    rcases p with ⟨a, w⟩
    by_cases hp : a = k
    · rw [groupedSet, if_pos hp, groupedLookup_cons, groupedLookup_cons,
        if_neg (fun hk => h hk.symm), if_neg (fun hk => h (hp ▸ hk).symm)]
    · rw [groupedSet, if_neg hp, groupedLookup_cons, groupedLookup_cons, ih]

theorem hasMessage_addMessage_preserved {g : Grouped} {ck sk : JStr}
    (h : hasMessage g ck sk) (kv : JStr × JStr) :
    hasMessage (addMessage g kv) ck sk := by
  rcases h with ⟨b, hb, w, hw⟩
  unfold addMessage
  by_cases hck : ck = getComponentKey kv.1
  · have hgb : (groupedLookup g (getComponentKey kv.1)).getD [] = b := by
      rw [← hck, hb]
      rfl
    refine ⟨bundleInsert b (getSimpleMessageKey kv.1) kv.2, ?_, ?_⟩
    · rw [hck, ← hgb]
      exact groupedLookup_set_self _ _ _
    · by_cases hsk : sk = getSimpleMessageKey kv.1
      · rw [hsk]
        exact ⟨kv.2, bundleLookup_insert_self _ _ _⟩
      · exact ⟨w, by rw [bundleLookup_insert_ne _ _ hsk]; exact hw⟩
  · exact ⟨b, by rw [groupedLookup_set_ne _ _ hck]; exact hb, w, hw⟩

theorem hasMessage_addMessage_self (g : Grouped) (kv : JStr × JStr) :
    hasMessage (addMessage g kv) (getComponentKey kv.1)
      (getSimpleMessageKey kv.1) := by
  unfold addMessage
  exact ⟨_, groupedLookup_set_self _ _ _, kv.2, bundleLookup_insert_self _ _ _⟩

theorem hasMessage_foldl {g : Grouped} {ck sk : JStr}
    (h : hasMessage g ck sk) (messages : List (JStr × JStr)) :
    hasMessage (messages.foldl addMessage g) ck sk := by
  induction messages generalizing g with
  | nil => exact h
  | cons kv rest ih => exact ih (hasMessage_addMessage_preserved h kv)

theorem groupMessages_places_each (messages : List (JStr × JStr)) :
    ∀ kv ∈ messages,
      hasMessage (groupMessagesByComponent messages) (getComponentKey kv.1)
        (getSimpleMessageKey kv.1) := by
  unfold groupMessagesByComponent
  generalize ([] : Grouped) = g
  induction messages generalizing g with
  | nil => intro kv hkv; cases hkv
  | cons kv₀ rest ih =>
    intro kv hkv
    rcases List.mem_cons.mp hkv with rfl | hkv'
    · exact hasMessage_foldl (hasMessage_addMessage_self g kv) rest
    · exact ih (addMessage g kv₀) kv hkv'

end MessageBundles

/-- Claim C9: for a message key containing an underscore, the key splits at
its last underscore — `getComponentKey k ++ "_" ++ getSimpleMessageKey k = k`
— and `groupMessagesByComponent` files every message under the component key
obtained by dropping the final underscore segment (with its simple key
present in that bundle); for a key with no underscore, `getComponentKey`
drops the key's last character and `getSimpleMessageKey` returns the whole
key. -/
theorem messageKey_split_and_grouping :
    (∀ k : MessageBundles.JStr, '_' ∈ k →
      MessageBundles.getComponentKey k ++ '_' ::
        MessageBundles.getSimpleMessageKey k = k) ∧
    (∀ k : MessageBundles.JStr, '_' ∉ k →
      MessageBundles.getComponentKey k = k.dropLast ∧
        MessageBundles.getSimpleMessageKey k = k) ∧
    (∀ (messages : List (MessageBundles.JStr × MessageBundles.JStr))
        (kv : MessageBundles.JStr × MessageBundles.JStr), kv ∈ messages →
      MessageBundles.hasMessage
        (MessageBundles.groupMessagesByComponent messages)
        (MessageBundles.getComponentKey kv.1)
        (MessageBundles.getSimpleMessageKey kv.1)) :=
  ⟨fun _ h => MessageBundles.split_at_last_underscore h,
   fun _ h => MessageBundles.split_no_underscore h,
   fun messages kv h => MessageBundles.groupMessages_places_each messages kv h⟩

/-- Witness for C9: the key `gpii_psp_header_autosaveText` splits into
component key `gpii_psp_header` and simple key `autosaveText`, and an
underscore-free key keeps its whole text as simple key. -/
theorem messageKey_split_witness :
    (MessageBundles.getComponentKey "gpii_psp_header_autosaveText".toList ++
        '_' :: MessageBundles.getSimpleMessageKey
          "gpii_psp_header_autosaveText".toList =
      "gpii_psp_header_autosaveText".toList) ∧
      MessageBundles.getSimpleMessageKey "keyOut".toList = "keyOut".toList :=
  ⟨messageKey_split_and_grouping.1 "gpii_psp_header_autosaveText".toList
      (by decide),
   (messageKey_split_and_grouping.2.1 "keyOut".toList (by decide)).2⟩


/-- Claim C10: `sendPayload` is safe when no client has ever connected: with
the stored socket still `null` it sends nothing and returns without raising
(it is a total function), and a payload is serialized and sent exactly when a
connection exists. -/
theorem sendPayload_safe_without_connection :
    (∀ p : SurveyServer.Payload, SurveyServer.sendPayload none p = []) ∧
    (∀ p : SurveyServer.Payload,
      SurveyServer.sendPayload SurveyServer.initialWebSocket p = []) ∧
    (∀ (ws : SurveyServer.WebSocketConn) (p : SurveyServer.Payload),
      SurveyServer.sendPayload (some ws) p =
        [(ws, SurveyServer.stringify p)]) :=
  ⟨fun _ => rfl, fun _ => rfl, fun _ _ => rfl⟩

end Gpii
